import Mathlib

/-!
Verification of `strip_musicxml.py` (diskerror/musicxml-tools).

The document tree of `xml.etree.ElementTree` is embedded as a nested
inductive: a node has a tag, an ordered attribute association list,
optional text, and an ordered list of children.  The stripping pass
(`strip_attributes` / `strip_tree`), the pitch decoder (`pitch_name`)
and the JSON extractor (`build_json`) are translated below; fallible
Python operations (`int(...)`, `float(...)` raising `ValueError`)
are rendered in the `Option` monad.
-/

/-! ## The embedded program -/

/-- An ElementTree node: tag, attributes (ordered assoc list with unique
keys), optional text, ordered children. -/
inductive Elem : Type where
  | mk (tag : String) (attrib : List (String × String))
       (text : Option String) (children : List Elem) : Elem

def Elem.tag : Elem → String
  | .mk t _ _ _ => t

def Elem.attrib : Elem → List (String × String)
  | .mk _ a _ _ => a

def Elem.text : Elem → Option String
  | .mk _ _ x _ => x

def Elem.children : Elem → List Elem
  | .mk _ _ _ cs => cs

/-- `element.get(key)`: attribute lookup, `None` when absent. -/
def Elem.get (e : Elem) (k : String) : Option String :=
  (e.attrib.find? (fun p => p.1 == k)).map (·.2)

def detag (e : Elem) : String :=
  let l := e.tag.toList
  if l.contains '\x7d' then
    String.mk ((l.reverse.takeWhile (fun c => c != '\x7d')).reverse)
  else e.tag

mutual

/-- All descendants of a node (excluding the node itself), in document
(preorder) order; this is the node set scanned by an ElementTree
`'.//tag'` path. -/
def descendants : Elem → List Elem
  | .mk _ _ _ cs => descList cs

/-- Descendant collection for a child list: each child followed by its
own descendants. -/
def descList : List Elem → List Elem
  | [] => []
  | c :: cs => c :: (descendants c ++ descList cs)

end

/-- `element.iter(tag)`: the node itself and all its descendants, in
document order, filtered by *raw* tag equality. -/
def iterTag (e : Elem) (t : String) : List Elem :=
  (e :: descendants e).filter (fun d => d.tag == t)

/-- `element.findall(tag)` for a plain child tag. -/
def childrenTag (e : Elem) (t : String) : List Elem :=
  e.children.filter (fun c => c.tag == t)

/-- `element.find(tag)` for a plain child tag. -/
def findChild (e : Elem) (t : String) : Option Elem :=
  (childrenTag e t).head?

/-- `element.findall('.//tag')`: descendants with the given raw tag. -/
def findAllDesc (e : Elem) (t : String) : List Elem :=
  (descendants e).filter (fun d => d.tag == t)

/-- `element.find('.//tag')`. -/
def findDesc (e : Elem) (t : String) : Option Elem :=
  (findAllDesc e t).head?

/-- `element.findall('a/b')`: the `b` children of every `a` child. -/
def findAllPath2 (e : Elem) (t1 t2 : String) : List Elem :=
  (childrenTag e t1).flatMap (fun c => childrenTag c t2)

/-- `el.text if el.text is not None else ''` — what `findtext` returns
for a found element. -/
def textOrEmpty (e : Elem) : String := e.text.getD ""

/-- `element.findtext(tag)` with default `None` for a plain child tag:
`some` of the element's text (`''` for missing text) when the child
exists, `none` otherwise. -/
def findtextChild (e : Elem) (t : String) : Option String :=
  (findChild e t).map textOrEmpty

/-- `element.findtext('.//tag')` with default `None`. -/
def findtextDesc (e : Elem) (t : String) : Option String :=
  (findDesc e t).map textOrEmpty

/-- `element.findtext('a/b')` with default `None`. -/
def findtextPath2 (e : Elem) (t1 t2 : String) : Option String :=
  ((findAllPath2 e t1 t2).head?).map textOrEmpty

/-- Python truthiness of an optional string (`None` and `''` are falsy). -/
def truthy : Option String → Bool
  | none => false
  | some s => !(s == "")

def STRIP_ATTRS : List String :=
  ["color", "default-x", "default-y", "font-family", "font-size",
   "font-weight", "font-style", "justify", "valign", "enclosure",
   "print-object"]

def STRIP_ELEMENTS : List String :=
  ["page-layout", "system-layout", "staff-layout", "appearance",
   "credit", "music-font", "word-font", "lyric-font", "lyric-language",
   "print"]

/-- `strip_attributes`: delete every attribute whose key is in
`STRIP_ATTRS`, keeping the remaining attributes in order. -/
def strip_attributes (e : Elem) : Elem :=
  match e with
  | .mk t a x cs => .mk t (a.filter (fun p => !(STRIP_ATTRS.contains p.1))) x cs

mutual

/-- `strip_tree(parent)`: children whose `detag` is in `STRIP_ELEMENTS`
are removed (collect-then-remove keeps the order of the survivors);
every kept child has its attributes stripped and is recursed into. -/
def strip_tree : Elem → Elem
  | .mk t a x cs => .mk t a x (stripKept cs)

/-- Child-list processing of `strip_tree`. -/
def stripKept : List Elem → List Elem
  | [] => []
  | c :: cs =>
      if STRIP_ELEMENTS.contains (detag c) then stripKept cs
      else stripChild c :: stripKept cs

/-- The effect of `strip_attributes(child); strip_tree(child)` on a
kept child. -/
def stripChild : Elem → Elem
  | .mk t a x cs =>
      .mk t (a.filter (fun p => !(STRIP_ATTRS.contains p.1))) x (stripKept cs)

end

/-- The whole stripping pass as `main` runs it:
`strip_attributes(root)` then `strip_tree(root)`. -/
def fullStrip (e : Elem) : Elem := strip_tree (strip_attributes e)

/-- Python `str.strip()`: drop leading and trailing whitespace. -/
def pyStrip (s : String) : String :=
  String.mk
    (((s.toList.dropWhile Char.isWhitespace).reverse.dropWhile
        Char.isWhitespace).reverse)

def digitsVal (l : List Char) : Nat :=
  l.foldl (fun a c => a * 10 + (c.toNat - 48)) 0

def parseSign : List Char → (Int × List Char)
  | '+' :: r => (1, r)
  | '-' :: r => (-1, r)
  | r => (1, r)

/-- `int(s)`: optional surrounding whitespace, optional sign, at least
one decimal digit. -/
def pyInt (s : String) : Option Int :=
  let (sgn, ds) := parseSign (pyStrip s).toList
  if !ds.isEmpty && ds.all Char.isDigit then some (sgn * digitsVal ds)
  else none

/-- Mantissa of a decimal literal: `digits`, `digits.digits`,
`digits.` or `.digits`; value is `m / 10^k` for the returned `(m, k)`. -/
def decMantissa (cs : List Char) : Option (Nat × Nat) :=
  let ip := cs.takeWhile Char.isDigit
  let rest := cs.dropWhile Char.isDigit
  match rest with
  | [] => if ip.isEmpty then none else some (digitsVal ip, 0)
  | '.' :: frac =>
      if frac.all Char.isDigit && !(ip.isEmpty && frac.isEmpty) then
        some (digitsVal (ip ++ frac), frac.length)
      else none
  | _ => none

/-- `float(s)` restricted to finite decimal literals, as an exact
scaled integer: `some (m, k)` stands for the value `m / 10^k`. -/
def pyFloat (s : String) : Option (Int × Nat) :=
  let (sgn, cs) := parseSign (pyStrip s).toList
  let mant := cs.takeWhile (fun c => c != 'e' && c != 'E')
  let rest := cs.dropWhile (fun c => c != 'e' && c != 'E')
  match decMantissa mant with
  | none => none
  | some (m, k) =>
      match rest with
      | [] => some (sgn * m, k)
      | _ :: ex =>
          let (esgn, eds) := parseSign ex
          if !eds.isEmpty && eds.all Char.isDigit then
            let e : Int := esgn * digitsVal eds
            if (k : Int) ≤ e then some (sgn * m * 10 ^ (e - k).toNat, 0)
            else some (sgn * m, ((k : Int) - e).toNat)
          else none

/-- Python `round` to an integer on the exact value `m / 10^k`:
round half to even. -/
def pyRound (v : Int × Nat) : Int :=
  let d : Int := 10 ^ v.2
  let q := Int.fdiv v.1 d
  let r := v.1 - d * q
  if 2 * r < d then q
  else if d < 2 * r then q + 1
  else if q % 2 = 0 then q else q + 1

/-- Python `int()` applied to the exact value `m / 10^k`: truncation
toward zero. -/
def pyTrunc (v : Int × Nat) : Int :=
  Int.tdiv v.1 (10 ^ v.2)

/-- The `ACCIDENTALS` table: alter values (as strings) to accidental
symbols. -/
def ACCIDENTALS : List (String × String) :=
  [("2", "x"), ("1", "#"), ("0", ""), ("-1", "b"), ("-2", "bb")]

/-- `dict.get(key, default)` on an association list. -/
def dictGetD (l : List (String × String)) (k d : String) : String :=
  match l.find? (fun p => p.1 == k) with
  | some p => p.2
  | none => d

/-- The accidental symbol chosen for a raw (already stripped) alter
string: `str(int(round(float(alter))))` looked up in `ACCIDENTALS`,
with `ValueError` from `float` giving the key `'0'` and a key outside
the table giving `''`. -/
def accSym (alter : String) : String :=
  let alter_key :=
    match pyFloat alter with
    | some v => toString (pyRound v)
    | none => "0"
  dictGetD ACCIDENTALS alter_key ""

/-- `pitch_name(pitch_el)`: `None` for a missing element, else
`f"{step}{acc}{octave}"` from the `step`, `alter` (stripped, default
`'0'`) and `octave` sub-elements. -/
def pitch_name (pitch_el : Option Elem) : Option String :=
  match pitch_el with
  | none => none
  | some pe =>
      let step := (findtextChild pe "step").getD ""
      let alter := pyStrip ((findtextChild pe "alter").getD "0")
      let octave := (findtextChild pe "octave").getD ""
      let acc := accSym alter
      some (step ++ acc ++ octave)

inductive JValue : Type where
  | null : JValue
  | bool (b : Bool) : JValue
  | int (n : Int) : JValue
  | str (s : String) : JValue
  | arr (elts : List JValue) : JValue
  | obj (fields : List (String × JValue)) : JValue

/-- `None`-or-string, as a JSON value. -/
def jStr : Option String → JValue
  | none => .null
  | some s => .str s

/-- A conditionally inserted dict entry: no entry when the computed
value is absent. -/
def optF (k : String) (v : Option JValue) : List (String × JValue) :=
  match v with
  | none => []
  | some x => [(k, x)]

/-- The keys of an object field list, in insertion order. -/
def keysOf (fs : List (String × JValue)) : List String :=
  fs.map Prod.fst

/-- First element of a scanned list whose attribute `k` is truthy:
the `get`/`if`/`break` loops used for ties and slurs. -/
def firstTruthyAttr (els : List Elem) (k : String) : Option String :=
  match els with
  | [] => none
  | e :: r =>
      match e.get k with
      | some v => if v == "" then firstTruthyAttr r k else some v
      | none => firstTruthyAttr r k

/-- `if s: field = int(s)`: no field for a falsy string, a parsed
integer otherwise (`ValueError` = `none`). -/
def intFieldOf (s : Option String) : Option (Option Int) :=
  if truthy s then (pyInt (s.getD "")).map some else some none

/-- The `pitch` entry: an explicit `rest` child wins, else a rendered
pitch when a `pitch` child exists, else no entry. -/
def pitchField (note : Elem) : Option JValue :=
  if (findChild note "rest").isSome then some (.str "rest")
  else (pitch_name (findChild note "pitch")).map .str

/-- The `type` entry: the verbatim text of the `type` child when
truthy. -/
def typeField (note : Elem) : Option JValue :=
  let t := findtextChild note "type"
  if truthy t then some (.str (t.getD "")) else none

/-- The `dots` entry: the number of `dot` children when nonzero. -/
def dotsField (note : Elem) : Option JValue :=
  let d := (childrenTag note "dot").length
  if d == 0 then none else some (.int d)

/-- The `chord` entry: `true` when a `chord` child is present. -/
def chordField (note : Elem) : Option JValue :=
  if (findChild note "chord").isSome then some (.bool true) else none

/-- `[b.text.strip() for b in note_el.findall('beam') if b.text]`. -/
def beamList (note : Elem) : List String :=
  (childrenTag note "beam").filterMap (fun b =>
    match b.text with
    | none => none
    | some t => if t == "" then none else some (pyStrip t))

def beamField (note : Elem) : Option JValue :=
  let bs := beamList note
  if bs.isEmpty then none else some (.arr (bs.map .str))

/-- The `grace` entry: `true` when a `grace` child is present. -/
def graceField (note : Elem) : Option JValue :=
  if (findChild note "grace").isSome then some (.bool true) else none

/-- The `tie` entry: type of the first direct `tie` child with a truthy
`type` attribute. -/
def tieField (note : Elem) : Option String :=
  firstTruthyAttr (childrenTag note "tie") "type"

/-- `note_el.findall('.//articulations/*')` mapped through `detag`. -/
def articList (note : Elem) : List String :=
  (findAllDesc note "articulations").flatMap (fun a => a.children.map detag)

def articField (note : Elem) : Option JValue :=
  let l := articList note
  if l.isEmpty then none else some (.arr (l.map .str))

/-- `note_el.findall('.//ornaments/*')` mapped through `detag`. -/
def ornamentList (note : Elem) : List String :=
  (findAllDesc note "ornaments").flatMap (fun o => o.children.map detag)

def ornamentField (note : Elem) : Option JValue :=
  let l := ornamentList note
  if l.isEmpty then none else some (.arr (l.map .str))

/-- The `slur` entry: type of the first nested `slur` with a truthy
`type` attribute. -/
def slurField (note : Elem) : Option String :=
  firstTruthyAttr (findAllDesc note "slur") "type"

/-- The `tuplet` entry: scan nested `tuplet` markers, stopping at the
first one whose `type` is exactly `'start'`; record `actual:normal`
only when both nested counts are truthy. -/
def tupletField (note : Elem) : Option String :=
  match (findAllDesc note "tuplet").find?
      (fun t => t.get "type" == some "start") with
  | none => none
  | some _ =>
      let actual := findtextDesc note "actual-notes"
      let normal := findtextDesc note "normal-notes"
      if truthy actual && truthy normal then
        some (actual.getD "" ++ ":" ++ normal.getD "")
      else none

/-- One note record, keys in dict insertion order; `none` when an
`int(...)` call on voice or staff raises. -/
def buildNote (note : Elem) : Option (List (String × JValue)) := do
  let v ← intFieldOf (findtextChild note "voice")
  let st ← intFieldOf (findtextChild note "staff")
  pure (optF "voice" (v.map .int) ++ optF "staff" (st.map .int) ++
        optF "pitch" (pitchField note) ++ optF "type" (typeField note) ++
        optF "dots" (dotsField note) ++ optF "chord" (chordField note) ++
        optF "beam" (beamField note) ++ optF "grace" (graceField note) ++
        optF "tie" ((tieField note).map .str) ++
        optF "artic" (articField note) ++
        optF "ornament" (ornamentField note) ++
        optF "slur" ((slurField note).map .str) ++
        optF "tuplet" ((tupletField note).map .str))

/-- `int(measure_el.get('number', 0))`: the absent attribute becomes
the integer `0`; a present attribute must parse. -/
def numberVal (m : Elem) : Option Int :=
  match m.get "number" with
  | none => some 0
  | some s => pyInt s

/-- `key_fifths`: from the first nested `key`, when it has a `fifths`
sub-element (whose text must then parse as an integer). -/
def keyFifthsF (m : Elem) : Option (Option Int) :=
  match findDesc m "key" with
  | none => some none
  | some ke =>
      match findtextChild ke "fifths" with
      | none => some none
      | some f => (pyInt f).map some

/-- `time`: `beats/beat-type` from the first nested `time`, when both
are truthy. -/
def timeF (m : Elem) : Option String :=
  match findDesc m "time" with
  | none => none
  | some te =>
      let b := findtextChild te "beats"
      let bt := findtextChild te "beat-type"
      if truthy b && truthy bt then some (b.getD "" ++ "/" ++ bt.getD "")
      else none

/-- The `per-minute` text of the first metronome in the measure that
has a truthy one (the `for`/`if`/`break` loop). -/
def firstPerMinute (m : Elem) : Option String :=
  ((iterTag m "metronome").filterMap (fun me =>
      let pm := findtextChild me "per-minute"
      if truthy pm then some (pm.getD "") else none)).head?

/-- `tempo`: `int(float(per_minute))` of the first truthy per-minute
marking. -/
def tempoF (m : Elem) : Option (Option Int) :=
  match firstPerMinute m with
  | none => some none
  | some s => (pyFloat s).map (fun v => some (pyTrunc v))

/-- The contribution of one `words` element to the directions list:
`if words_el.text: directions.append(words_el.text.strip())`. -/
def wordEntry (w : Elem) : Option String :=
  match w.text with
  | none => none
  | some t => if t == "" then none else some (pyStrip t)

/-- Text directions: `words` nested in direct `direction` children;
falsy raw text is skipped, kept text is stripped. -/
def directionsList (m : Elem) : List String :=
  (childrenTag m "direction").flatMap (fun d =>
    (findAllDesc d "words").filterMap wordEntry)

/-- Wedge elements nested in direct `direction` children. -/
def wedgeEls (m : Elem) : List Elem :=
  (childrenTag m "direction").flatMap (fun d => findAllDesc d "wedge")

/-- One wedge record: a `type` entry (possibly null) and, for a truthy
`number` attribute, a parsed integer `number` entry. -/
def wedgeObj (w : Elem) : Option JValue :=
  let base := [("type", jStr (w.get "type"))]
  if truthy (w.get "number") then
    (pyInt ((w.get "number").getD "")).map
      (fun i => JValue.obj (base ++ [("number", .int i)]))
  else some (.obj base)

def wedgesF (m : Elem) : Option (List JValue) :=
  (wedgeEls m).mapM wedgeObj

/-- Pedal elements nested in direct `direction` children. -/
def pedalEls (m : Elem) : List Elem :=
  (childrenTag m "direction").flatMap (fun d => findAllDesc d "pedal")

/-- One pedal record: a `type` entry (possibly null) and, for a truthy
`line` attribute, the boolean `line == 'yes'`. -/
def pedalObj (p : Elem) : JValue :=
  .obj ([("type", jStr (p.get "type"))] ++
        (if truthy (p.get "line") then
          [("line", JValue.bool (p.get "line" == some "yes"))]
         else []))

def pedalsList (m : Elem) : List JValue :=
  (pedalEls m).map pedalObj

/-- Dynamics tokens: children of the first nested `dynamics` of each
direct `direction` child, `detag`ged. -/
def dynamicsList (m : Elem) : List String :=
  (childrenTag m "direction").flatMap (fun d =>
    match findDesc d "dynamics" with
    | none => []
    | some dy => dy.children.map detag)

/-- A list-valued entry, omitted when the list is empty. -/
def listOpt (l : List JValue) : Option JValue :=
  if l.isEmpty then none else some (.arr l)

/-- One measure record, keys in dict insertion order; `none` when any
`int(...)`/`float(...)` call inside the measure raises. -/
def buildMeasure (m : Elem) : Option (List (String × JValue)) := do
  let num ← numberVal m
  let kf ← keyFifthsF m
  let tp ← tempoF m
  let ws ← wedgesF m
  let ns ← (childrenTag m "note").mapM buildNote
  pure ([("number", JValue.int num)] ++
        optF "key_fifths" (kf.map .int) ++
        optF "time" ((timeF m).map .str) ++
        optF "tempo" (tp.map .int) ++
        optF "directions" (listOpt ((directionsList m).map .str)) ++
        optF "wedges" (listOpt ws) ++
        optF "pedals" (listOpt (pedalsList m)) ++
        optF "dynamics" (listOpt ((dynamicsList m).map .str)) ++
        optF "notes" (listOpt (ns.map .obj)))

/-- The embedded `_schema` description string. -/
def SCHEMA_STR : String :=
  "measures[]\x7bnumber, key_fifths?, time?, tempo?, dynamics[]?, wedges[]?, pedals[]?, directions[]?, notes[]\x7bvoice, staff, pitch|\x27rest\x27, type, dots?, beam[]?, chord?, tie?, grace?, artic[]?, ornament[]?, slur?, tuplet?\x7d\x7d"

/-- `root.findtext('work/work-title') or root.findtext('movement-title')
or None`. -/
def titleVal (root : Elem) : Option String :=
  let t1 := findtextPath2 root "work" "work-title"
  let t2 := findtextChild root "movement-title"
  if truthy t1 then t1 else if truthy t2 then t2 else none

/-- The `identification/creator` elements. -/
def creatorsOf (root : Elem) : List Elem :=
  findAllPath2 root "identification" "creator"

/-- The composer/arranger assignment loop: every matching creator
overwrites the slot, so the last one wins; the stored value is the
creator's raw text (possibly `None`). -/
def creatorFold (root : Elem) : Option String × Option String :=
  (creatorsOf root).foldl
    (fun p cr =>
      let role := (cr.get "type").getD ""
      if role == "composer" then (cr.text, p.2)
      else if role == "arranger" then (p.1, cr.text)
      else p)
    (none, none)

/-- `build_json(root)`: the full score record, `none` when a
`ValueError` escapes. -/
def build_json (root : Elem) : Option JValue := do
  let ms ← (iterTag root "measure").mapM
    (fun m => (buildMeasure m).map JValue.obj)
  pure (.obj [("_schema", .str SCHEMA_STR),
              ("title", jStr (titleVal root)),
              ("composer", jStr (creatorFold root).1),
              ("arranger", jStr (creatorFold root).2),
              ("measures", .arr ms)])

/-- The JSON branch of `main`, with the document tree threaded as
state: `build_json` only reads the tree, so the branch returns it
untouched next to the record. -/
def jsonModeRun (root : Elem) : Option JValue × Elem :=
  (build_json root, root)

/-- The XML branch of `main`: the stripping pass mutates the tree in
place and returns the mutated tree. -/
def xmlModeRun (root : Elem) : Elem :=
  fullStrip root

/-- Lookup of a key in an object field list. -/
def lookupJ (fs : List (String × JValue)) (k : String) : Option JValue :=
  (fs.find? (fun p => p.1 == k)).map (·.2)

def tupletNoteEx : Elem :=
  .mk "note" [] none
    [.mk "notations" [] none [.mk "tuplet" [("type", "start")] none []],
     .mk "time-modification" [] none
       [.mk "actual-notes" [] (some "3") [],
        .mk "normal-notes" [] (some "2") []]]

def tieNoteCex : Elem :=
  .mk "note" [] none
    [.mk "tie" [("type", "")] none [],
     .mk "tie" [("type", "stop")] none []]

def wsMeasureCex : Elem :=
  .mk "measure" [] none
    [.mk "direction" [] none
      [.mk "direction-type" [] none [.mk "words" [] (some "   ") []]]]

/-- Spec-side reading of the amended direction collection: the
`words` elements nested in direct `direction` children, in document
order, keeping exactly those whose raw text is present and non-empty,
each rendered as its stripped text. -/
def specDirections (m : Elem) : List String :=
  (childrenTag m "direction").flatMap (fun d =>
    (((findAllDesc d "words").filter
        (fun w => w.text != none && w.text != some "")).map
      (fun w => pyStrip (w.text.getD ""))))

def dirMeasureEx : Elem :=
  .mk "measure" [("number", "4")] none
    [.mk "direction" [] none
      [.mk "direction-type" [] none
        [.mk "words" [] (some " cresc. ") []]]]

def badNumMeasureCex : Elem := .mk "measure" [("number", "one")] none []

def badNumMeasure6 : Elem := .mk "measure" [("number", "3a")] none []

def nsScoreCex : Elem :=
  .mk "\x7bns\x7dscore-partwise" [] none
    [.mk "\x7bns\x7dmeasure" [("number", "1")] none []]

def bareScoreCex : Elem :=
  .mk "score-partwise" [] none
    [.mk "measure" [("number", "1")] none []]

/-! ## Verification -/

/-- Structural induction principle for `Elem` exposing the children. -/
theorem Elem.induct (P : Elem → Prop)
    (h : ∀ t a x cs, (∀ c ∈ cs, P c) → P (Elem.mk t a x cs)) :
    ∀ e, P e :=
  fun e =>
    @Elem.rec P (fun cs => ∀ c ∈ cs, P c)
      (fun t a x cs ih => h t a x cs ih)
      (fun _ hc => absurd hc (List.not_mem_nil _))
      (fun hd tl ph pt c hc => by
        rw [List.mem_cons] at hc
        rcases hc with h1 | h2
        · exact h1 ▸ ph
        · exact pt c h2) e

/-- `stripChild` is literally `strip_attributes` followed by
`strip_tree`, as the Python loop body performs it. -/
theorem stripChild_eq (e : Elem) :
    stripChild e = strip_tree (strip_attributes e) := by
  cases e with
  | mk t a x cs => simp [stripChild, strip_attributes, strip_tree]

theorem keysOf_append (a b : List (String × JValue)) :
    keysOf (a ++ b) = keysOf a ++ keysOf b := by
  simp [keysOf]

theorem mem_keysOf_optF (k' k : String) (v : Option JValue) :
    k' ∈ keysOf (optF k v) ↔ k' = k ∧ v.isSome := by
  cases v <;> simp [optF, keysOf]

theorem buildNote_some (note : Elem) (fs : List (String × JValue))
    (h : buildNote note = some fs) :
    ∃ v st, intFieldOf (findtextChild note "voice") = some v ∧
      intFieldOf (findtextChild note "staff") = some st ∧
      fs = optF "voice" (v.map .int) ++ optF "staff" (st.map .int) ++
        optF "pitch" (pitchField note) ++ optF "type" (typeField note) ++
        optF "dots" (dotsField note) ++ optF "chord" (chordField note) ++
        optF "beam" (beamField note) ++ optF "grace" (graceField note) ++
        optF "tie" ((tieField note).map .str) ++
        optF "artic" (articField note) ++
        optF "ornament" (ornamentField note) ++
        optF "slur" ((slurField note).map .str) ++
        optF "tuplet" ((tupletField note).map .str) := by
  unfold buildNote at h
  cases hv : intFieldOf (findtextChild note "voice") with
  | none => rw [hv] at h; simp at h
  | some v =>
      cases hs : intFieldOf (findtextChild note "staff") with
      | none => rw [hv, hs] at h; simp at h
      | some st =>
          rw [hv, hs] at h
          simp at h
          refine ⟨v, st, rfl, rfl, ?_⟩
          rw [← h]
          simp [List.append_assoc]

theorem buildMeasure_some (m : Elem) (fs : List (String × JValue))
    (h : buildMeasure m = some fs) :
    ∃ num kf tp ws ns, numberVal m = some num ∧
      keyFifthsF m = some kf ∧ tempoF m = some tp ∧
      wedgesF m = some ws ∧
      (childrenTag m "note").mapM buildNote = some ns ∧
      fs = [("number", JValue.int num)] ++
        optF "key_fifths" (kf.map .int) ++
        optF "time" ((timeF m).map .str) ++
        optF "tempo" (tp.map .int) ++
        optF "directions" (listOpt ((directionsList m).map .str)) ++
        optF "wedges" (listOpt ws) ++
        optF "pedals" (listOpt (pedalsList m)) ++
        optF "dynamics" (listOpt ((dynamicsList m).map .str)) ++
        optF "notes" (listOpt (ns.map .obj)) := by
  unfold buildMeasure at h
  cases h1 : numberVal m with
  | none => rw [h1] at h; simp at h
  | some num =>
  cases h2 : keyFifthsF m with
  | none => rw [h1, h2] at h; simp at h
  | some kf =>
  cases h3 : tempoF m with
  | none => rw [h1, h2, h3] at h; simp at h
  | some tp =>
  cases h4 : wedgesF m with
  | none => rw [h1, h2, h3, h4] at h; simp at h
  | some ws =>
  cases h5 : (childrenTag m "note").mapM buildNote with
  | none => rw [h1, h2, h3, h4, h5] at h; simp at h
  | some ns =>
      rw [h1, h2, h3, h4, h5] at h
      simp at h
      refine ⟨num, kf, tp, ws, ns, rfl, rfl, rfl, rfl, rfl, ?_⟩
      rw [← h]
      simp [List.append_assoc]

theorem detag_stripChild (e : Elem) : detag (stripChild e) = detag e := by
  cases e with
  | mk t a x cs => simp [detag, stripChild, Elem.tag]

theorem stripKept_idem_of (cs : List Elem)
    (ih : ∀ c ∈ cs, stripChild (stripChild c) = stripChild c) :
    stripKept (stripKept cs) = stripKept cs := by
  induction cs with
  | nil => simp [stripKept]
  | cons c cs ih2 =>
      have ihc : ∀ c' ∈ cs, stripChild (stripChild c') = stripChild c' :=
        fun c' hc' => ih c' (List.mem_cons_of_mem c hc')
      by_cases hc : detag c ∈ STRIP_ELEMENTS
      · simp [stripKept, hc, ih2 ihc]
      · simp [stripKept, hc, detag_stripChild, ih2 ihc,
              ih c (List.mem_cons_self c cs)]

theorem stripChild_idem : ∀ e, stripChild (stripChild e) = stripChild e := by
  refine Elem.induct _ (fun t a x cs ih => ?_)
  simp [stripChild, stripKept_idem_of cs ih, List.filter_filter]

theorem stripKept_idem (cs : List Elem) :
    stripKept (stripKept cs) = stripKept cs :=
  stripKept_idem_of cs (fun c _ => stripChild_idem c)

/-- Claim C3: the stripping pass (attribute removal on the root plus
the recursive attribute/element removal of `strip_tree`) is idempotent:
a second application removes nothing further and returns the tree
unchanged. -/
theorem strip_pass_idempotent (e : Elem) :
    fullStrip (fullStrip e) = fullStrip e := by
  cases e with
  | mk t a x cs =>
      simp [fullStrip, strip_attributes, strip_tree, stripKept_idem,
            List.filter_filter]

theorem toDigitsCore_len_le (f : Nat) :
    ∀ (n : Nat) (ds : List Char),
      ds.length ≤ (Nat.toDigitsCore 10 f n ds).length := by
  induction f with
  | zero => intro n ds; simp [Nat.toDigitsCore]
  | succ f ih =>
      intro n ds
      simp only [Nat.toDigitsCore]
      by_cases h : n / 10 = 0
      · simp [h]
      · simp only [h, if_neg]
        calc ds.length ≤ (Nat.digitChar (n % 10) :: ds).length := by simp
          _ ≤ _ := ih (n / 10) (Nat.digitChar (n % 10) :: ds)

theorem toDigitsCore_len_pos (f : Nat) :
    ∀ (n : Nat) (ds : List Char), f ≠ 0 →
      1 + ds.length ≤ (Nat.toDigitsCore 10 f n ds).length := by
  induction f with
  | zero => intro n ds hf; exact absurd rfl hf
  | succ f ih =>
      intro n ds _
      have step : Nat.toDigitsCore 10 (f + 1) n ds =
          if n / 10 = 0 then Nat.digitChar (n % 10) :: ds
          else Nat.toDigitsCore 10 f (n / 10) (Nat.digitChar (n % 10) :: ds) :=
        rfl
      rw [step]
      by_cases h : n / 10 = 0
      · simp [h]; omega
      · rw [if_neg h]
        cases f with
        | zero => simp [Nat.toDigitsCore]; omega
        | succ g =>
            have := ih (n / 10) (Nat.digitChar (n % 10) :: ds) (Nat.succ_ne_zero g)
            simp at this
            omega

theorem toDigits_len_ge_two (n : Nat) (h : 10 ≤ n) :
    2 ≤ (Nat.toDigits 10 n).length := by
  have h10 : n / 10 ≠ 0 := Nat.ne_of_gt (Nat.div_pos h (by omega))
  have hn : n ≠ 0 := by omega
  have step : Nat.toDigits 10 n =
      if n / 10 = 0 then [Nat.digitChar (n % 10)]
      else Nat.toDigitsCore 10 n (n / 10) [Nat.digitChar (n % 10)] := rfl
  rw [step, if_neg h10]
  have := toDigitsCore_len_pos n (n / 10) [Nat.digitChar (n % 10)] hn
  simpa using this

theorem digitChar_ne_dash (m : Nat) : Nat.digitChar m ≠ '-' := by
  by_cases h : m < 16
  · interval_cases m <;> decide
  · unfold Nat.digitChar
    repeat rw [if_neg (by omega)]
    decide

theorem toDigitsCore_no_dash (f : Nat) :
    ∀ (n : Nat) (ds : List Char), (∀ c ∈ ds, c ≠ '-') →
      ∀ c ∈ Nat.toDigitsCore 10 f n ds, c ≠ '-' := by
  induction f with
  | zero => intro n ds hds; simpa [Nat.toDigitsCore] using hds
  | succ f ih =>
      intro n ds hds
      simp only [Nat.toDigitsCore]
      by_cases h : n / 10 = 0
      · simp only [h, if_pos]
        intro c hc
        rw [List.mem_cons] at hc
        rcases hc with hc | hc
        · exact hc ▸ digitChar_ne_dash (n % 10)
        · exact hds c hc
      · simp only [h, if_neg]
        refine ih (n / 10) _ ?_
        intro c hc
        rw [List.mem_cons] at hc
        rcases hc with hc | hc
        · exact hc ▸ digitChar_ne_dash (n % 10)
        · exact hds c hc

theorem toDigits_no_dash (n : Nat) : ∀ c ∈ Nat.toDigits 10 n, c ≠ '-' :=
  toDigitsCore_no_dash (n + 1) n [] (by simp)

theorem natRepr_data (n : Nat) : (Nat.repr n).data = Nat.toDigits 10 n := rfl

theorem natRepr_single (n : Nat) (c : Char) (h : Nat.repr n = String.mk [c]) :
    n < 10 := by
  by_contra hge
  have h2 := toDigits_len_ge_two n (by omega)
  have hd : (Nat.repr n).data = [c] := by rw [h]
  rw [natRepr_data] at hd
  rw [hd] at h2
  simp at h2

theorem natRepr_eq_zero (n : Nat) (h : Nat.repr n = "0") : n = 0 := by
  have := natRepr_single n '0' h
  interval_cases n <;> revert h <;> decide

theorem natRepr_eq_one (n : Nat) (h : Nat.repr n = "1") : n = 1 := by
  have := natRepr_single n '1' h
  interval_cases n <;> revert h <;> decide

theorem natRepr_eq_two (n : Nat) (h : Nat.repr n = "2") : n = 2 := by
  have := natRepr_single n '2' h
  interval_cases n <;> revert h <;> decide

theorem natRepr_ne_dash_str (n : Nat) (s : String) (hs : '-' ∈ s.data) :
    Nat.repr n ≠ s := by
  intro h
  rw [← h, natRepr_data] at hs
  exact toDigits_no_dash n '-' hs rfl

/-- For a rounded alteration outside `-2..2`, the `ACCIDENTALS` lookup
falls through to the default empty symbol. -/
theorem accLookup_out_of_range (k : Int) (h : 2 < k ∨ k < -2) :
    dictGetD ACCIDENTALS (toString k) "" = "" := by
  have key2 : toString k ≠ "2" := by
    cases k with
    | ofNat n =>
        intro hk
        have hn : n = 2 := natRepr_eq_two n hk
        subst hn
        revert h
        decide
    | negSucc m =>
        intro hk
        have hd : ('-' :: (Nat.repr (m + 1)).data) = ['2'] :=
          congrArg String.data hk
        simp at hd
  have key1 : toString k ≠ "1" := by
    cases k with
    | ofNat n =>
        intro hk
        have hn : n = 1 := natRepr_eq_one n hk
        subst hn
        revert h
        decide
    | negSucc m =>
        intro hk
        have hd : ('-' :: (Nat.repr (m + 1)).data) = ['1'] :=
          congrArg String.data hk
        simp at hd
  have key0 : toString k ≠ "0" := by
    cases k with
    | ofNat n =>
        intro hk
        have hn : n = 0 := natRepr_eq_zero n hk
        subst hn
        revert h
        decide
    | negSucc m =>
        intro hk
        have hd : ('-' :: (Nat.repr (m + 1)).data) = ['0'] :=
          congrArg String.data hk
        simp at hd
  have keyn1 : toString k ≠ "-1" := by
    cases k with
    | ofNat n => exact natRepr_ne_dash_str n "-1" (by decide)
    | negSucc m =>
        intro hk
        have hd : ('-' :: (Nat.repr (m + 1)).data) = ['-', '1'] :=
          congrArg String.data hk
        simp at hd
        have hm : m + 1 = 1 := natRepr_eq_one (m + 1) (String.ext hd)
        rw [Int.negSucc_eq] at h
        omega
  have keyn2 : toString k ≠ "-2" := by
    cases k with
    | ofNat n => exact natRepr_ne_dash_str n "-2" (by decide)
    | negSucc m =>
        intro hk
        have hd : ('-' :: (Nat.repr (m + 1)).data) = ['-', '2'] :=
          congrArg String.data hk
        simp at hd
        have hm : m + 1 = 2 := natRepr_eq_two (m + 1) (String.ext hd)
        rw [Int.negSucc_eq] at h
        omega
  have b2 : ("2" == toString k) = false := by
    simp [key2.symm]
  have b1 : ("1" == toString k) = false := by
    simp [key1.symm]
  have b0 : ("0" == toString k) = false := by
    simp [key0.symm]
  have bn1 : ("-1" == toString k) = false := by
    simp [keyn1.symm]
  have bn2 : ("-2" == toString k) = false := by
    simp [keyn2.symm]
  simp [dictGetD, ACCIDENTALS, List.find?, b2, b1, b0, bn1, bn2]

/-- Claim C2: for a pitch sub-node with step `s`, alteration `a` and
octave `o`, the decoder renders `s ++ accidental ++ o`, the accidental
being the `ACCIDENTALS` entry of the parsed-and-rounded alteration
(half-to-even on the exact decimal value); an unparsable alteration
gives no symbol, a rounded value outside `-2..2` gives no symbol, the
five in-range values give the fixed symbols, and `"1.49"` and `"1.0"`
both render as sharp. -/
theorem pitch_decoder_correct :
    (∀ s a o : String,
      pitch_name (some (Elem.mk "pitch" [] none
        [Elem.mk "step" [] (some s) [], Elem.mk "alter" [] (some a) [],
         Elem.mk "octave" [] (some o) []])) =
      some (s ++ accSym (pyStrip a) ++ o)) ∧
    (∀ a v, pyFloat a = some v →
      accSym a = dictGetD ACCIDENTALS (toString (pyRound v)) "") ∧
    (∀ a, pyFloat a = none → accSym a = "") ∧
    (∀ a v, pyFloat a = some v → 2 < pyRound v ∨ pyRound v < -2 →
      accSym a = "") ∧
    (dictGetD ACCIDENTALS (toString (-2 : Int)) "" = "bb" ∧
     dictGetD ACCIDENTALS (toString (-1 : Int)) "" = "b" ∧
     dictGetD ACCIDENTALS (toString (0 : Int)) "" = "" ∧
     dictGetD ACCIDENTALS (toString (1 : Int)) "" = "#" ∧
     dictGetD ACCIDENTALS (toString (2 : Int)) "" = "x") ∧
    accSym "1.49" = "#" ∧ accSym "1.0" = "#" := by
  refine ⟨fun s a o => rfl, ?_, ?_, ?_, by decide, by decide, by decide⟩
  · intro a v h
    simp [accSym, h]
  · intro a h
    simp [accSym, h, dictGetD, ACCIDENTALS, List.find?]
    decide
  · intro a v h hout
    simp [accSym, h]
    exact accLookup_out_of_range (pyRound v) hout

/-- Witness for C2 at concrete alterations: `"1.49"` (parsable,
rounds to 1), `"zzz"` (unparsable) and `"9.7"` (rounds to 10,
out of range). -/
theorem pitch_decoder_correct_witness :
    accSym "1.49" = dictGetD ACCIDENTALS (toString (pyRound (149, 2))) "" ∧
    accSym "zzz" = "" ∧ accSym "9.7" = "" :=
  ⟨pitch_decoder_correct.2.1 "1.49" (149, 2) rfl,
   pitch_decoder_correct.2.2.1 "zzz" rfl,
   pitch_decoder_correct.2.2.2.1 "9.7" (97, 1) rfl (Or.inl (by decide))⟩

/-- Claim C9: the JSON branch never mutates the document tree.  In
this embedding the tree is threaded through the branch as explicit
state; `build_json` is translated from source that performs reads
only, and the branch hands the tree back unchanged next to the
record. -/
theorem extractor_no_mutation (root : Elem) :
    (jsonModeRun root).2 = root ∧ (jsonModeRun root).1 = build_json root :=
  ⟨rfl, rfl⟩

theorem creatorStep_fst (l : List Elem) :
    ∀ p : Option String × Option String,
      (∀ cr ∈ l, ((cr.get "type").getD "") ≠ "composer") →
      (l.foldl
        (fun p cr =>
          let role := (cr.get "type").getD ""
          if role == "composer" then (cr.text, p.2)
          else if role == "arranger" then (p.1, cr.text)
          else p) p).1 = p.1 := by
  induction l with
  | nil => intro p _; rfl
  | cons cr l ih =>
      intro p hall
      have h1 : ((cr.get "type").getD "") ≠ "composer" :=
        hall cr (List.mem_cons_self cr l)
      have hrest : ∀ c ∈ l, ((c.get "type").getD "") ≠ "composer" :=
        fun c hc => hall c (List.mem_cons_of_mem cr hc)
      have b1 : (((cr.get "type").getD "") == "composer") = false := by
        simp [h1]
      simp only [List.foldl_cons]
      rw [ih _ hrest]
      by_cases h2 : (((cr.get "type").getD "") == "arranger") = true <;>
        simp [b1, h2]

theorem creatorStep_snd (l : List Elem) :
    ∀ p : Option String × Option String,
      (∀ cr ∈ l, ((cr.get "type").getD "") ≠ "arranger") →
      (l.foldl
        (fun p cr =>
          let role := (cr.get "type").getD ""
          if role == "composer" then (cr.text, p.2)
          else if role == "arranger" then (p.1, cr.text)
          else p) p).2 = p.2 := by
  induction l with
  | nil => intro p _; rfl
  | cons cr l ih =>
      intro p hall
      have h1 : ((cr.get "type").getD "") ≠ "arranger" :=
        hall cr (List.mem_cons_self cr l)
      have hrest : ∀ c ∈ l, ((c.get "type").getD "") ≠ "arranger" :=
        fun c hc => hall c (List.mem_cons_of_mem cr hc)
      have b1 : (((cr.get "type").getD "") == "arranger") = false := by
        simp [h1]
      simp only [List.foldl_cons]
      rw [ih _ hrest]
      by_cases h2 : (((cr.get "type").getD "") == "composer") = true <;>
        simp [b1, h2]

/-- Claim C10: whenever a score record is produced, it is an object
with exactly the keys `_schema`, `title`, `composer`, `arranger` and
`measures` in that order — score-level keys are never omitted — and
`title`/`composer`/`arranger` hold `null` when the source carries no
work/movement title resp. no creator of the matching type. -/
theorem score_record_top_level (root : Elem) (j : JValue)
    (h : build_json root = some j) :
    ∃ fs, j = .obj fs ∧
      keysOf fs = ["_schema", "title", "composer", "arranger", "measures"] ∧
      lookupJ fs "_schema" = some (.str SCHEMA_STR) ∧
      lookupJ fs "title" = some (jStr (titleVal root)) ∧
      lookupJ fs "composer" = some (jStr (creatorFold root).1) ∧
      lookupJ fs "arranger" = some (jStr (creatorFold root).2) ∧
      (truthy (findtextPath2 root "work" "work-title") = false →
        truthy (findtextChild root "movement-title") = false →
        lookupJ fs "title" = some .null) ∧
      ((∀ cr ∈ creatorsOf root, ((cr.get "type").getD "") ≠ "composer") →
        lookupJ fs "composer" = some .null) ∧
      ((∀ cr ∈ creatorsOf root, ((cr.get "type").getD "") ≠ "arranger") →
        lookupJ fs "arranger" = some .null) := by
  unfold build_json at h
  cases hm : (iterTag root "measure").mapM
      (fun m => (buildMeasure m).map JValue.obj) with
  | none => rw [hm] at h; simp at h
  | some ms =>
      rw [hm] at h
      simp at h
      refine ⟨[("_schema", .str SCHEMA_STR),
               ("title", jStr (titleVal root)),
               ("composer", jStr (creatorFold root).1),
               ("arranger", jStr (creatorFold root).2),
               ("measures", .arr ms)], h.symm, by simp [keysOf], rfl, rfl,
              rfl, rfl, ?_, ?_, ?_⟩
      · intro h1 h2
        simp [lookupJ, titleVal, h1, h2, jStr]
      · intro hno
        have hz : (creatorFold root).1 = none :=
          creatorStep_fst (creatorsOf root) (none, none) hno
        simp [lookupJ, hz, jStr]
      · intro hno
        have hz : (creatorFold root).2 = none :=
          creatorStep_snd (creatorsOf root) (none, none) hno
        simp [lookupJ, hz, jStr]

/-- Witness for C10 on a score element with no titles, creators or
measures: all three metadata keys are present and null. -/
theorem score_record_top_level_witness :
    ∃ fs, (JValue.obj
        [("_schema", JValue.str SCHEMA_STR), ("title", JValue.null),
         ("composer", JValue.null), ("arranger", JValue.null),
         ("measures", JValue.arr [])]) = JValue.obj fs ∧
      keysOf fs = ["_schema", "title", "composer", "arranger", "measures"] ∧
      lookupJ fs "_schema" = some (.str SCHEMA_STR) ∧
      lookupJ fs "title" =
        some (jStr (titleVal (Elem.mk "score-partwise" [] none []))) ∧
      lookupJ fs "composer" =
        some (jStr (creatorFold (Elem.mk "score-partwise" [] none [])).1) ∧
      lookupJ fs "arranger" =
        some (jStr (creatorFold (Elem.mk "score-partwise" [] none [])).2) ∧
      (truthy (findtextPath2 (Elem.mk "score-partwise" [] none [])
          "work" "work-title") = false →
        truthy (findtextChild (Elem.mk "score-partwise" [] none [])
          "movement-title") = false →
        lookupJ fs "title" = some .null) ∧
      ((∀ cr ∈ creatorsOf (Elem.mk "score-partwise" [] none []),
          ((cr.get "type").getD "") ≠ "composer") →
        lookupJ fs "composer" = some .null) ∧
      ((∀ cr ∈ creatorsOf (Elem.mk "score-partwise" [] none []),
          ((cr.get "type").getD "") ≠ "arranger") →
        lookupJ fs "arranger" = some .null) :=
  score_record_top_level (Elem.mk "score-partwise" [] none []) _ rfl

theorem exists_mem_optF (k' k : String) (v : Option JValue) :
    (∃ x, (k', x) ∈ optF k v) ↔ k' = k ∧ v.isSome := by
  cases v <;> simp [optF]

theorem listOpt_isSome (l : List JValue) :
    (listOpt l).isSome = true ↔ l ≠ [] := by
  cases l <;> simp [listOpt]

theorem listOpt_eq_some (l : List JValue) (v : JValue) :
    listOpt l = some v ↔ l ≠ [] ∧ v = .arr l := by
  cases l <;> simp [listOpt, eq_comm]

theorem mem_optF (k' k : String) (v : JValue) (x : Option JValue) :
    (k', v) ∈ optF k x ↔ k' = k ∧ x = some v := by
  cases x with
  | none => simp [optF]
  | some a => simp [optF, eq_comm]

theorem tupletField_isSome_iff (note : Elem) :
    (tupletField note).isSome = true ↔
      ((∃ t ∈ findAllDesc note "tuplet", t.get "type" = some "start") ∧
       truthy (findtextDesc note "actual-notes") = true ∧
       truthy (findtextDesc note "normal-notes") = true) := by
  unfold tupletField
  cases hf : (findAllDesc note "tuplet").find?
      (fun t => t.get "type" == some "start") with
  | none =>
      rw [List.find?_eq_none] at hf
      constructor
      · intro hc
        simp at hc
      · rintro ⟨⟨t, ht, hty⟩, -, -⟩
        have hcontra := hf t ht
        simp [hty] at hcontra
  | some t =>
      have hmem := List.mem_of_find?_eq_some hf
      have hty := List.find?_some hf
      simp only [beq_iff_eq] at hty
      by_cases ha : truthy (findtextDesc note "actual-notes") = true
      · by_cases hn : truthy (findtextDesc note "normal-notes") = true
        · simp [ha, hn]
          exact ⟨t, hmem, hty⟩
        · simp [ha, hn]
      · simp [ha]

theorem tupletField_some_eq (note : Elem) (s : String)
    (h : tupletField note = some s) :
    s = (findtextDesc note "actual-notes").getD "" ++ ":" ++
        (findtextDesc note "normal-notes").getD "" := by
  unfold tupletField at h
  cases hf : (findAllDesc note "tuplet").find?
      (fun t => t.get "type" == some "start") with
  | none => rw [hf] at h; simp at h
  | some t =>
      rw [hf] at h
      by_cases hc : (truthy (findtextDesc note "actual-notes") &&
          truthy (findtextDesc note "normal-notes")) = true
      · rw [if_pos hc] at h
        exact (Option.some_injective _ h).symm
      · rw [if_neg hc] at h
        simp at h

/-- Claim C4: the `tuplet` field of a note record is present exactly
when some nested tuplet marker has type `start` and both nested
`actual-notes`/`normal-notes` counts are readable (non-empty), and its
value is then the string `actual:normal`. -/
theorem tuplet_field_conditional (note : Elem) (fs : List (String × JValue))
    (h : buildNote note = some fs) :
    (("tuplet" ∈ keysOf fs) ↔
      ((∃ t ∈ findAllDesc note "tuplet", t.get "type" = some "start") ∧
       truthy (findtextDesc note "actual-notes") = true ∧
       truthy (findtextDesc note "normal-notes") = true)) ∧
    (∀ v, ("tuplet", v) ∈ fs →
      v = .str ((findtextDesc note "actual-notes").getD "" ++ ":" ++
                (findtextDesc note "normal-notes").getD "")) := by
  obtain ⟨v, st, _, _, hfs⟩ := buildNote_some note fs h
  subst hfs
  constructor
  · rw [← tupletField_isSome_iff]
    simp [keysOf_append, mem_keysOf_optF]
  · intro w hw
    simp only [List.mem_append, mem_optF] at hw
    simp at hw
    obtain ⟨s, hts, hsw⟩ := hw
    rw [← hsw, tupletField_some_eq note s hts]

/-- Witness for C4 on a note carrying a `start` tuplet marker and the
counts 3 and 2: the record's only entry is `tuplet = "3:2"`. -/
theorem tuplet_field_conditional_witness :
    (("tuplet" ∈ keysOf [("tuplet", JValue.str "3:2")]) ↔
      ((∃ t ∈ findAllDesc tupletNoteEx "tuplet",
          t.get "type" = some "start") ∧
       truthy (findtextDesc tupletNoteEx "actual-notes") = true ∧
       truthy (findtextDesc tupletNoteEx "normal-notes") = true)) ∧
    (∀ v, ("tuplet", v) ∈ [("tuplet", JValue.str "3:2")] →
      v = .str ((findtextDesc tupletNoteEx "actual-notes").getD "" ++ ":" ++
                (findtextDesc tupletNoteEx "normal-notes").getD "")) :=
  tuplet_field_conditional tupletNoteEx [("tuplet", JValue.str "3:2")] rfl

/-- Counterexample to C8 as stated: in this note the *first* tie
marker does carry a `type` attribute (with value `""`), yet the
extracted tie value is `"stop"`, taken from the second marker — the
loop skips falsy type attributes rather than stopping at the first
marker that merely carries one. -/
theorem tie_first_attr_counterexample :
    ((childrenTag tieNoteCex "tie").head?.bind (fun t => t.get "type")) =
      some "" ∧
    tieField tieNoteCex = some "stop" ∧
    (some "stop" : Option String) ≠ some "" :=
  ⟨rfl, rfl, by decide⟩

theorem firstTruthyAttr_eq (els : List Elem) (k : String) :
    firstTruthyAttr els k =
      ((els.filterMap (fun t => t.get k)).filter (fun s => s != "")).head? := by
  induction els with
  | nil => rfl
  | cons e r ih =>
      cases hg : e.get k with
      | none => simp [firstTruthyAttr, hg, ih]
      | some v =>
          by_cases hv : v = ""
          · subst hv
            simp [firstTruthyAttr, hg, ih]
          · simp [firstTruthyAttr, hg, hv, ih]

/-- Claim C8 (amended): the tie value is the `type` attribute of the
first direct tie child whose `type` attribute is present *and
non-empty*; later markers are ignored; the record's `tie` entry is
present exactly when such a marker exists and holds that value; a
note with `start` then `stop` tie markers yields `start`. -/
theorem tie_first_nonempty_wins :
    (∀ els k, firstTruthyAttr els k =
      ((els.filterMap (fun t => t.get k)).filter
        (fun s => s != "")).head?) ∧
    (∀ note fs, buildNote note = some fs →
      (("tie" ∈ keysOf fs) ↔ (tieField note).isSome = true) ∧
      ∀ v, ("tie", v) ∈ fs → v = .str ((tieField note).getD "")) ∧
    tieField (Elem.mk "note" [] none
      [.mk "tie" [("type", "start")] none [],
       .mk "tie" [("type", "stop")] none []]) = some "start" := by
  refine ⟨firstTruthyAttr_eq, ?_, rfl⟩
  intro note fs h
  obtain ⟨v, st, _, _, hfs⟩ := buildNote_some note fs h
  subst hfs
  constructor
  · simp [keysOf_append, mem_keysOf_optF]
  · intro w hw
    simp only [List.mem_append, mem_optF] at hw
    simp at hw
    obtain ⟨s, hts, hsw⟩ := hw
    simp [← hsw, hts]

/-- Witness for C8 on a note with a single `start` tie marker: the
record's only entry is `tie = "start"`. -/
theorem tie_first_nonempty_wins_witness :
    (("tie" ∈ keysOf [("tie", JValue.str "start")]) ↔
      (tieField (Elem.mk "note" [] none
        [Elem.mk "tie" [("type", "start")] none []])).isSome = true) ∧
    ∀ v, ("tie", v) ∈ [("tie", JValue.str "start")] →
      v = .str ((tieField (Elem.mk "note" [] none
        [Elem.mk "tie" [("type", "start")] none []])).getD "") :=
  tie_first_nonempty_wins.2.1
    (Elem.mk "note" [] none [Elem.mk "tie" [("type", "start")] none []])
    [("tie", JValue.str "start")] rfl

/-- Counterexample to C7 as stated: the only `words` text in this
measure is whitespace-only, yet it contributes an entry — the empty
string — and the `directions` field is present. -/
theorem directions_whitespace_counterexample :
    directionsList wsMeasureCex = [""] ∧
    buildMeasure wsMeasureCex =
      some [("number", JValue.int 0),
            ("directions", JValue.arr [JValue.str ""])] :=
  ⟨rfl, rfl⟩

theorem filterMap_words_eq (l : List Elem) :
    l.filterMap wordEntry =
    ((l.filter (fun w => w.text != none && w.text != some "")).map
      (fun w => pyStrip (w.text.getD ""))) := by
  induction l with
  | nil => rfl
  | cons w r ih =>
      cases ht : w.text with
      | none => simp [List.filterMap_cons, wordEntry, ht, ih]
      | some t =>
          by_cases he : t = ""
          · subst he
            simp [List.filterMap_cons, wordEntry, ht, ih]
          · simp [List.filterMap_cons, wordEntry, ht, he, ih]

/-- Claim C7 (amended): the directions list holds, in document order,
the stripped text of every `words` element nested in a direct
`direction` child whose raw text is present and non-empty — a
whitespace-only raw text is *kept* and yields an empty-string entry —
and the `directions` field is present in the measure record exactly
when this list is non-empty, holding exactly this list. -/
theorem directions_collection (m : Elem) :
    directionsList m = specDirections m ∧
    (∀ fs, buildMeasure m = some fs →
      (("directions" ∈ keysOf fs) ↔ directionsList m ≠ []) ∧
      ∀ v, ("directions", v) ∈ fs →
        v = .arr ((directionsList m).map .str)) := by
  constructor
  · unfold directionsList specDirections
    congr 1
    funext d
    exact filterMap_words_eq (findAllDesc d "words")
  · intro fs h
    obtain ⟨num, kf, tp, ws, ns, _, _, _, _, _, hfs⟩ :=
      buildMeasure_some m fs h
    subst hfs
    constructor
    · simp [keysOf_append, mem_keysOf_optF, exists_mem_optF, keysOf,
            listOpt_isSome]
    · intro w hw
      simp only [List.mem_append, mem_optF, List.mem_singleton] at hw
      simp at hw
      rw [listOpt_eq_some] at hw
      exact hw.2

/-- Witness for C7 on a measure with one direction text `" cresc. "`:
the field is present and holds the stripped text. -/
theorem directions_collection_witness :
    (("directions" ∈ keysOf [("number", JValue.int 4),
        ("directions", JValue.arr [JValue.str "cresc."])]) ↔
      directionsList dirMeasureEx ≠ []) ∧
    ∀ v, ("directions", v) ∈ [("number", JValue.int 4),
        ("directions", JValue.arr [JValue.str "cresc."])] →
      v = .arr ((directionsList dirMeasureEx).map .str) :=
  (directions_collection dirMeasureEx).2
    [("number", JValue.int 4), ("directions", JValue.arr [JValue.str "cresc."])]
    rfl

/-- Counterexample to C1 as stated: this measure carries no key, time,
metronome, dynamics, directions, wedges, pedals or notes, yet the
extractor produces *no* record at all — `int('one')` raises — instead
of a record containing only its number. -/
theorem sparse_measure_counterexample :
    findAllDesc badNumMeasureCex "key" = [] ∧
    findAllDesc badNumMeasureCex "time" = [] ∧
    iterTag badNumMeasureCex "metronome" = [] ∧
    directionsList badNumMeasureCex = [] ∧
    wedgeEls badNumMeasureCex = [] ∧
    pedalEls badNumMeasureCex = [] ∧
    dynamicsList badNumMeasureCex = [] ∧
    childrenTag badNumMeasureCex "note" = [] ∧
    buildMeasure badNumMeasureCex = none :=
  ⟨rfl, rfl, rfl, rfl, rfl, rfl, rfl, rfl, rfl⟩

/-- Claim C1 (amended): provided the number attribute is absent or
parses, a measure carrying no key, time, metronome, directions,
wedges, pedals, dynamics or notes yields a record whose only field is
`number`; and in any produced measure record, each optional field is
present only when the measure actually carries the corresponding
information. -/
theorem measure_sparse_fields :
    (∀ m k, numberVal m = some k →
      findAllDesc m "key" = [] → findAllDesc m "time" = [] →
      iterTag m "metronome" = [] → directionsList m = [] →
      wedgeEls m = [] → pedalEls m = [] → dynamicsList m = [] →
      childrenTag m "note" = [] →
      buildMeasure m = some [("number", JValue.int k)]) ∧
    (∀ m fs, buildMeasure m = some fs →
      (("key_fifths" ∈ keysOf fs) → (findDesc m "key").isSome = true) ∧
      (("time" ∈ keysOf fs) → (findDesc m "time").isSome = true) ∧
      (("tempo" ∈ keysOf fs) → (firstPerMinute m).isSome = true) ∧
      (("directions" ∈ keysOf fs) → directionsList m ≠ []) ∧
      (("wedges" ∈ keysOf fs) → wedgeEls m ≠ []) ∧
      (("pedals" ∈ keysOf fs) → pedalEls m ≠ []) ∧
      (("dynamics" ∈ keysOf fs) → dynamicsList m ≠ []) ∧
      (("notes" ∈ keysOf fs) → childrenTag m "note" ≠ [])) := by
  constructor
  · intro m k hnum hkey htime hmet hdir hwed hped hdyn hnote
    have h1 : keyFifthsF m = some none := by
      simp [keyFifthsF, findDesc, hkey]
    have h2 : timeF m = none := by
      simp [timeF, findDesc, htime]
    have h3 : tempoF m = some none := by
      simp [tempoF, firstPerMinute, hmet]
    have h4 : wedgesF m = some [] := by
      unfold wedgesF
      rw [hwed]
      rfl
    have h5 : (childrenTag m "note").mapM buildNote = some [] := by
      rw [hnote]
      rfl
    simp [buildMeasure, hnum, h1, h2, h3, h4, hnote, hdir, hped, hdyn,
          pedalsList, optF, listOpt, List.mapM.loop]
  · intro m fs h
    obtain ⟨num, kf, tp, ws, ns, hnum, hkf, htp, hws, hns, hfs⟩ :=
      buildMeasure_some m fs h
    subst hfs
    refine ⟨?_, ?_, ?_, ?_, ?_, ?_, ?_, ?_⟩
    · intro hmem
      simp [keysOf_append, mem_keysOf_optF, exists_mem_optF, keysOf] at hmem
      obtain ⟨v, hv⟩ := Option.isSome_iff_exists.mp hmem
      rw [hv] at hkf
      cases hfd : findDesc m "key" with
      | none =>
          unfold keyFifthsF at hkf
          rw [hfd] at hkf
          simp at hkf
      | some ke => simp
    · intro hmem
      simp [keysOf_append, mem_keysOf_optF, exists_mem_optF, keysOf] at hmem
      obtain ⟨v, hv⟩ := Option.isSome_iff_exists.mp hmem
      cases hfd : findDesc m "time" with
      | none =>
          unfold timeF at hv
          rw [hfd] at hv
          simp at hv
      | some te => simp
    · intro hmem
      simp [keysOf_append, mem_keysOf_optF, exists_mem_optF, keysOf] at hmem
      obtain ⟨v, hv⟩ := Option.isSome_iff_exists.mp hmem
      rw [hv] at htp
      cases hpm : firstPerMinute m with
      | none =>
          unfold tempoF at htp
          rw [hpm] at htp
          simp at htp
      | some s => simp
    · intro hmem
      simp [keysOf_append, mem_keysOf_optF, exists_mem_optF, keysOf,
            listOpt_isSome] at hmem
      exact hmem
    · intro hmem
      simp [keysOf_append, mem_keysOf_optF, exists_mem_optF, keysOf,
            listOpt_isSome] at hmem
      intro hcontra
      have hz : wedgesF m = some [] := by
        unfold wedgesF
        rw [hcontra]
        rfl
      have hwse : ([] : List JValue) = ws :=
        Option.some.inj (hz.symm.trans hws)
      exact hmem hwse.symm
    · intro hmem
      simp [keysOf_append, mem_keysOf_optF, exists_mem_optF, keysOf,
            listOpt_isSome] at hmem
      intro hcontra
      unfold pedalsList at hmem
      rw [hcontra] at hmem
      simp at hmem
    · intro hmem
      simp [keysOf_append, mem_keysOf_optF, exists_mem_optF, keysOf,
            listOpt_isSome] at hmem
      exact hmem
    · intro hmem
      simp [keysOf_append, mem_keysOf_optF, exists_mem_optF, keysOf,
            listOpt_isSome] at hmem
      intro hcontra
      have hz : (childrenTag m "note").mapM buildNote = some [] := by
        rw [hcontra]
        rfl
      have hnse : ([] : List (List (String × JValue))) = ns :=
        Option.some.inj (hz.symm.trans hns)
      exact hmem hnse.symm

/-- Witness for C1 on an empty measure numbered 5: the record is
exactly `[number = 5]`. -/
theorem measure_sparse_fields_witness :
    buildMeasure (Elem.mk "measure" [("number", "5")] none []) =
      some [("number", JValue.int 5)] :=
  measure_sparse_fields.1 (Elem.mk "measure" [("number", "5")] none []) 5
    rfl rfl rfl rfl rfl rfl rfl rfl rfl

/-- Counterexample to C6 as stated: this measure's number attribute is
present but unparsable, and extraction of the measure *fails*
(`int('3a')` raises) instead of defaulting the number to 0. -/
theorem measure_number_counterexample :
    badNumMeasure6.get "number" = some "3a" ∧
    buildMeasure badNumMeasure6 = none :=
  ⟨rfl, rfl⟩

/-- Claim C6 (amended): the number field is the parsed number
attribute; the default 0 applies only when the attribute is *absent*;
a present but unparsable attribute makes the measure extraction raise,
and every produced record does carry the parsed number. -/
theorem measure_number_policy :
    (∀ m, m.get "number" = none → numberVal m = some 0) ∧
    (∀ m s, m.get "number" = some s → numberVal m = pyInt s) ∧
    (∀ m s, m.get "number" = some s → pyInt s = none →
      buildMeasure m = none) ∧
    (∀ m fs, buildMeasure m = some fs →
      ∃ k, numberVal m = some k ∧ ("number", JValue.int k) ∈ fs) := by
  refine ⟨?_, ?_, ?_, ?_⟩
  · intro m hget
    simp [numberVal, hget]
  · intro m s hget
    simp [numberVal, hget]
  · intro m s hget hparse
    have hz : numberVal m = none := by simp [numberVal, hget, hparse]
    simp [buildMeasure, hz]
  · intro m fs h
    obtain ⟨num, kf, tp, ws, ns, hnum, _, _, _, _, hfs⟩ :=
      buildMeasure_some m fs h
    subst hfs
    exact ⟨num, hnum, by simp⟩

/-- Witness for C6: an absent number attribute defaults to 0, and a
number attribute `"1.5"` aborts the measure extraction. -/
theorem measure_number_policy_witness :
    numberVal (Elem.mk "measure" [] none []) = some 0 ∧
    buildMeasure (Elem.mk "measure" [("number", "1.5")] none []) = none :=
  ⟨measure_number_policy.1 (Elem.mk "measure" [] none []) rfl,
   measure_number_policy.2.2.1 (Elem.mk "measure" [("number", "1.5")] none [])
     "1.5" rfl rfl⟩

/-- Counterexample to C5 as stated: `bareScoreCex` is exactly
`nsScoreCex` with the namespace prefixes removed (witnessed through
`detag`), yet extraction of the qualified tree finds *no* measures —
the extractor's lookups compare raw tag names — while the bare tree
yields one. -/
theorem namespace_extraction_counterexample :
    detag nsScoreCex = bareScoreCex.tag ∧
    nsScoreCex.children.map detag = bareScoreCex.children.map Elem.tag ∧
    build_json nsScoreCex =
      some (.obj [("_schema", .str SCHEMA_STR), ("title", .null),
                  ("composer", .null), ("arranger", .null),
                  ("measures", .arr [])]) ∧
    build_json bareScoreCex =
      some (.obj [("_schema", .str SCHEMA_STR), ("title", .null),
                  ("composer", .null), ("arranger", .null),
                  ("measures",
                   .arr [.obj [("number", .int 1)]])]) ∧
    (some (JValue.obj [("_schema", .str SCHEMA_STR), ("title", .null),
                  ("composer", .null), ("arranger", .null),
                  ("measures", .arr [])]) : Option JValue) ≠
      some (.obj [("_schema", .str SCHEMA_STR), ("title", .null),
                  ("composer", .null), ("arranger", .null),
                  ("measures",
                   .arr [.obj [("number", .int 1)]])]) := by
  refine ⟨rfl, rfl, rfl, rfl, ?_⟩
  intro h
  simp at h

theorem takeWhile_until_brace (u v : List Char)
    (hu : ∀ c ∈ u, (c != '\x7d') = true) :
    (u ++ '\x7d' :: v).takeWhile (fun c => c != '\x7d') = u := by
  induction u with
  | nil => simp [List.takeWhile]
  | cons c u ih =>
      have hc := hu c (List.mem_cons_self c u)
      have hrest : ∀ c' ∈ u, (c' != '\x7d') = true :=
        fun c' hc' => hu c' (List.mem_cons_of_mem c hc')
      simp [List.takeWhile_cons, hc, ih hrest]

/-- Claim C5 (amended): `detag` strips any namespace qualification
prefix (general fact on tags); the Noise Stripper compares the
*detagged* names, so it removes a qualified layout element and keeps a
qualified musical one; but the Semantic Extractor's element lookups
compare raw tag names — every element collected by the measure
iterator literally has tag `"measure"` — so extraction is not
invariant under namespace qualification. -/
theorem namespace_detag_scope :
    (∀ (p t : List Char), '\x7d' ∉ t →
      ∀ a x cs,
        detag (Elem.mk (String.mk ('\x7b' :: p ++ '\x7d' :: t)) a x cs) =
          String.mk t) ∧
    fullStrip (Elem.mk "measure" [] none
      [Elem.mk "\x7bu\x7dprint" [] none [],
       Elem.mk "\x7bu\x7dnote" [] none []]) =
      Elem.mk "measure" [] none [Elem.mk "\x7bu\x7dnote" [] none []] ∧
    (∀ root e, e ∈ iterTag root "measure" → e.tag = "measure") := by
  refine ⟨?_, rfl, ?_⟩
  · intro p t ht a x cs
    have hcon : ((String.mk ('\x7b' :: p ++ '\x7d' :: t)).toList.contains
        '\x7d') = true := by
      show (('\x7b' :: p ++ '\x7d' :: t).contains '\x7d') = true
      simp
    have hlist : ((('\x7b' :: p ++ '\x7d' :: t).reverse).takeWhile
        (fun c => c != '\x7d')).reverse = t := by
      have hsh : ('\x7b' :: p ++ '\x7d' :: t).reverse =
          t.reverse ++ '\x7d' :: (p.reverse ++ ['\x7b']) := by simp
      rw [hsh, takeWhile_until_brace]
      · simp
      · intro c hc
        have hct : c ∈ t := by simpa using hc
        simp only [bne_iff_ne, ne_eq, decide_eq_true_eq]
        intro hce
        exact ht (hce ▸ hct)
    simp only [detag, Elem.tag, hcon, if_true]
    exact congrArg String.mk hlist
  · intro root e he
    have := List.mem_filter.mp he
    simpa using this.2

/-- Witness for C5: `detag` strips the prefix `{u}` from a concrete
qualified tag, and a concrete element collected by the measure
iterator has raw tag `"measure"`. -/
theorem namespace_detag_scope_witness :
    detag (Elem.mk (String.mk ('\x7b' :: ['u'] ++ '\x7d' :: ['p', 'r']))
        [] none []) = String.mk ['p', 'r'] ∧
    (Elem.mk "measure" [("number", "1")] none []).tag = "measure" :=
  ⟨namespace_detag_scope.1 ['u'] ['p', 'r'] (by decide) [] none [],
   namespace_detag_scope.2.2 bareScoreCex
     (Elem.mk "measure" [("number", "1")] none [])
     (by
       show (Elem.mk "measure" [("number", "1")] none []) ∈
         [Elem.mk "measure" [("number", "1")] none []]
       exact List.mem_singleton_self _)⟩
